import Mathlib

/-!
Shallow embedding of the CreateTimestamp chat-analysis pipeline
(`src/convert.py`) together with theorems settling the specification
claims about it.

Conventions of the embedding:
* Python floats appearing in the pipeline (POSIX timestamps, distances,
  means) are modelled as rationals `ℚ`; all arithmetic the code performs
  on them (subtraction, sum, division by a count) is exact on the values
  the pipeline actually handles, so `ℚ` is a faithful model.
* Python exceptions (`IndexError` from `csv.records[0]` on an empty list,
  `ZeroDivisionError` from `sum_distance / len(index_distance)`) are
  modelled with an explicit `Except PyError` result.
* The reaction pattern of `re.search` is modelled as an opaque Boolean
  matcher on the message text, exactly as the spec directs ("treat as an
  opaque configurable matcher").
-/

/-- Error classes raised by the distance computation in `convert.py`. -/
inductive PyError where
  | indexError
  | zeroDivisionError
deriving DecidableEq

/-- Embedding of `MessageItem` of `convert.py`: a normalized chat record with an
elapsed-time label, a normalized date-time string, a POSIX epoch value and
the message text. -/
structure MessageItem where
  timestamp : String
  date_time : String
  unixtime : ℚ
  message : String
deriving DecidableEq

/-- Embedding of `MessageItem.has_kusa` of `convert.py`: the record matches when the
(opaque) pattern matcher accepts its message text. -/
def MessageItem.has_kusa (m : MessageItem) (pattern : String → Bool) : Bool :=
  pattern m.message

/-- Embedding of `CsvFile` of `convert.py`: the ordered list of normalized records. -/
structure CsvFile where
  records : List MessageItem
deriving DecidableEq

/-- Embedding of `KusaDistanceBase` of `convert.py`: a matching record paired with the
time distance to the previous reaction. -/
structure KusaDistanceBase where
  item : MessageItem
  distance : ℚ
deriving DecidableEq

/-- Embedding of `KusaDistance` of `convert.py`: the reaction events plus the mean
distance (field spelled `avarage` in the source). -/
structure KusaDistance where
  records : List KusaDistanceBase
  avarage : ℚ
deriving DecidableEq

/-- The loop body of `KusaDistance.of`: walks the records keeping the
`before` cursor, emitting an event with `distance = unixtime - before` for
each match and accumulating the sum of distances. -/
def kusaLoop (p : String → Bool) (before : ℚ) :
    List MessageItem → List KusaDistanceBase × ℚ
  | [] => ([], 0)
  | r :: rs =>
    if r.has_kusa p then
      let d := r.unixtime - before
      let rest := kusaLoop p r.unixtime rs
      (⟨r, d⟩ :: rest.1, d + rest.2)
    else
      kusaLoop p before rs

/-- Embedding of `KusaDistance.of` of `convert.py`.  The source first reads
`csv.records[0].unixtime` (an `IndexError` on an empty list), then runs the
loop over the whole record list, and finally divides the accumulated sum by
the number of emitted events (a `ZeroDivisionError` when none matched). -/
def KusaDistance.of (csv : CsvFile) (p : String → Bool) :
    Except PyError KusaDistance :=
  match csv.records with
  | [] => Except.error PyError.indexError
  | r0 :: _ =>
    let res := kusaLoop p r0.unixtime csv.records
    if res.1.length = 0 then
      Except.error PyError.zeroDivisionError
    else
      Except.ok ⟨res.1, res.2 / (res.1.length : ℚ)⟩

/-- Specification-side description of the emitted reaction events: the
k-th matching record paired with its epoch minus the previous matching
record's epoch (the first one measured from the initial cursor value). -/
def reactionEventsSpec (before : ℚ) (ms : List MessageItem) :
    List KusaDistanceBase :=
  List.zipWith (fun r prev => ⟨r, r.unixtime - prev⟩) ms
    (before :: (ms.map fun m => m.unixtime).dropLast)

theorem reactionEventsSpec_cons (before : ℚ) (r : MessageItem)
    (ms : List MessageItem) :
    reactionEventsSpec before (r :: ms) =
      ⟨r, r.unixtime - before⟩ :: reactionEventsSpec r.unixtime ms := by
  cases ms <;> simp [reactionEventsSpec]

theorem reactionEventsSpec_length (before : ℚ) (ms : List MessageItem) :
    (reactionEventsSpec before ms).length = ms.length := by
  cases ms <;> simp [reactionEventsSpec]

/-- The loop of `KusaDistance.of` computes exactly the specified events (on
the pattern-filtered records) and the sum of their distances. -/
theorem kusaLoop_eq (p : String → Bool) (l : List MessageItem) (before : ℚ) :
    kusaLoop p before l =
      (reactionEventsSpec before (l.filter fun r => r.has_kusa p),
       ((reactionEventsSpec before (l.filter fun r => r.has_kusa p)).map
          fun e => e.distance).sum) := by
  induction l generalizing before with
  | nil => simp [kusaLoop, reactionEventsSpec]
  | cons r rs ih =>
    by_cases hp : r.has_kusa p
    · simp [kusaLoop, hp, List.filter_cons, reactionEventsSpec_cons, ih]
    · simp [kusaLoop, hp, List.filter_cons, ih]

/-- Embedding of `KusaGroup` of `convert.py`: bursts of consecutive reaction events. -/
structure KusaGroup where
  groups : List (List KusaDistanceBase)
deriving DecidableEq

/-- The loop of `KusaGroup.of`: append each event to the open group `temp`;
when the event's distance strictly exceeds the mean, emit the group and
start a new one.  A still-open group at the end of the list is dropped. -/
def KusaGroup.go (avarage : ℚ) (temp : List KusaDistanceBase) :
    List KusaDistanceBase → List (List KusaDistanceBase)
  | [] => []
  | r :: rs =>
    if r.distance > avarage then
      (temp ++ [r]) :: KusaGroup.go avarage [] rs
    else
      KusaGroup.go avarage (temp ++ [r]) rs

/-- Embedding of `KusaGroup.of` of `convert.py`. -/
def KusaGroup.of (kusa_distance : KusaDistance) : KusaGroup :=
  ⟨KusaGroup.go kusa_distance.avarage [] kusa_distance.records⟩

/-- Master characterization of the grouping loop: provided the open group
holds only non-exceeding events, the input splits as the concatenation of
the emitted groups followed by a non-exceeding tail, every emitted group is
non-empty, its non-final events do not exceed the mean, and its final event
strictly exceeds the mean. -/
theorem KusaGroup.go_spec (avarage : ℚ) :
    ∀ (l temp : List KusaDistanceBase),
      (∀ x ∈ temp, ¬ x.distance > avarage) →
      ∃ tail,
        temp ++ l = (KusaGroup.go avarage temp l).flatten ++ tail ∧
        (∀ x ∈ tail, ¬ x.distance > avarage) ∧
        ∀ g ∈ KusaGroup.go avarage temp l,
          g ≠ [] ∧ (∀ x ∈ g.dropLast, ¬ x.distance > avarage) ∧
          ∀ y, g.getLast? = some y → y.distance > avarage := by
  intro l
  induction l with
  | nil =>
    intro temp htemp
    exact ⟨temp, by simp [KusaGroup.go], htemp, by simp [KusaGroup.go]⟩
  | cons r rs ih =>
    intro temp htemp
    by_cases h : r.distance > avarage
    · obtain ⟨tail, heq, htail, hg⟩ := ih [] (by simp)
      refine ⟨tail, ?_, htail, ?_⟩
      · simp only [KusaGroup.go, if_pos h, List.flatten_cons]
        rw [List.append_assoc, ← heq]
        simp
      · intro g hgmem
        simp only [KusaGroup.go, if_pos h, List.mem_cons] at hgmem
        rcases hgmem with rfl | hgmem
        · refine ⟨by simp, ?_, ?_⟩
          · simpa [List.dropLast_concat] using htemp
          · intro y hy
            rw [List.getLast?_concat] at hy
            cases hy
            exact h
        · exact hg g hgmem
    · have htemp' : ∀ x ∈ temp ++ [r], ¬ x.distance > avarage := by
        intro x hx
        rcases List.mem_append.mp hx with hx | hx
        · exact htemp x hx
        · simp at hx
          subst hx
          exact h
      obtain ⟨tail, heq, htail, hg⟩ := ih (temp ++ [r]) htemp'
      refine ⟨tail, ?_, htail, ?_⟩
      · simpa only [KusaGroup.go, if_neg h, List.append_assoc, List.cons_append,
          List.nil_append] using heq
      · intro g hgmem
        simp only [KusaGroup.go, if_neg h] at hgmem
        exact hg g hgmem

/-- C1: burst grouping boundary behavior of `KusaGroup.of`: the input
splits as emitted groups followed by a dropped tail of non-exceeding
events; every event whose distance strictly exceeds the mean is the last
element of its emitted group (all non-final events of a group do not
exceed the mean), and a trailing run after the last strictly-exceeding
event (or the whole sequence when no event exceeds) is absent from the
output. -/
theorem C1_burst_grouping_boundary (kd : KusaDistance) :
    ∃ tail,
      kd.records = (KusaGroup.of kd).groups.flatten ++ tail ∧
      (∀ x ∈ tail, ¬ x.distance > kd.avarage) ∧
      ∀ g ∈ (KusaGroup.of kd).groups,
        g ≠ [] ∧ (∀ x ∈ g.dropLast, ¬ x.distance > kd.avarage) ∧
        ∀ y, g.getLast? = some y → y.distance > kd.avarage := by
  simpa [KusaGroup.of] using
    KusaGroup.go_spec kd.avarage kd.records [] (by simp)

/-- C8: every group emitted by `KusaGroup.of` is non-empty, and the
concatenation of the emitted groups is an initial segment of the input
event sequence, so groups and the events inside each group appear in the
input's chronological order. -/
theorem C8_group_output_invariant (kd : KusaDistance) :
    (∀ g ∈ (KusaGroup.of kd).groups, g ≠ []) ∧
    ∃ tail, (KusaGroup.of kd).groups.flatten ++ tail = kd.records := by
  obtain ⟨tail, heq, -, hg⟩ :=
    KusaGroup.go_spec kd.avarage kd.records [] (by simp)
  refine ⟨fun g hgmem => (hg g hgmem).1, ⟨tail, ?_⟩⟩
  simpa [KusaGroup.of] using heq.symm

/-- C2: for a non-empty record list, `KusaDistance.of` starts the
previous-epoch cursor at the epoch of the very first record of the
filtered sequence, emits one event per matching record with
`distance = epoch - previous_epoch` (cursor updated to each match), and
returns mean = sum of the N distances divided by N. -/
theorem C2_distance_computation (csv : CsvFile) (p : String → Bool)
    (r0 : MessageItem) (rest : List MessageItem)
    (h : csv.records = r0 :: rest)
    (hm : csv.records.filter (fun r => r.has_kusa p) ≠ []) :
    KusaDistance.of csv p = Except.ok
      ⟨reactionEventsSpec r0.unixtime (csv.records.filter fun r => r.has_kusa p),
       ((reactionEventsSpec r0.unixtime
           (csv.records.filter fun r => r.has_kusa p)).map
          fun e => e.distance).sum
         / ((csv.records.filter fun r => r.has_kusa p).length : ℚ)⟩ := by
  obtain ⟨recs⟩ := csv
  have h2 : recs = r0 :: rest := h
  subst h2
  have hlen : (reactionEventsSpec r0.unixtime
      ((r0 :: rest).filter fun r => r.has_kusa p)).length ≠ 0 := by
    rw [reactionEventsSpec_length]
    simpa [List.length_eq_zero] using hm
  show (if _ then _ else _) = _
  rw [kusaLoop_eq]
  rw [reactionEventsSpec_length] at hlen
  simp only [reactionEventsSpec_length, if_neg hlen]

/-- Witness for C2 at a concrete input whose first record does NOT match:
the single matching record's distance is measured from the filtered
sequence's first record. -/
theorem C2_distance_computation_witness :
    (⟨[⟨"", "", 10, "hello"⟩, ⟨"", "", 13, "w"⟩]⟩ : CsvFile).records =
        ⟨"", "", 10, "hello"⟩ :: [⟨"", "", 13, "w"⟩] ∧
    (⟨[⟨"", "", 10, "hello"⟩, ⟨"", "", 13, "w"⟩]⟩ : CsvFile).records.filter
        (fun r => r.has_kusa fun s => s == "w") ≠ [] ∧
    KusaDistance.of ⟨[⟨"", "", 10, "hello"⟩, ⟨"", "", 13, "w"⟩]⟩
        (fun s => s == "w") = Except.ok
      ⟨reactionEventsSpec (10 : ℚ)
          ((⟨[⟨"", "", 10, "hello"⟩, ⟨"", "", 13, "w"⟩]⟩ : CsvFile).records.filter
            fun r => r.has_kusa fun s => s == "w"),
       ((reactionEventsSpec (10 : ℚ)
           ((⟨[⟨"", "", 10, "hello"⟩, ⟨"", "", 13, "w"⟩]⟩ : CsvFile).records.filter
             fun r => r.has_kusa fun s => s == "w")).map
          fun e => e.distance).sum
         / (((⟨[⟨"", "", 10, "hello"⟩, ⟨"", "", 13, "w"⟩]⟩ : CsvFile).records.filter
             fun r => r.has_kusa fun s => s == "w").length : ℚ)⟩ :=
  ⟨rfl, by decide,
   C2_distance_computation _ _ _ _ rfl (by decide)⟩

/-- C3 counterexample: on the empty record list no record matches the
pattern (vacuously), yet `KusaDistance.of` fails with an `IndexError`
(from reading the first record's epoch), not with the division-error
condition the claim asserts for every no-match input. -/
theorem C3_counterexample_empty_input :
    KusaDistance.of ⟨[]⟩ (fun _ => true) = Except.error PyError.indexError ∧
    KusaDistance.of ⟨[]⟩ (fun _ => true) ≠
      Except.error PyError.zeroDivisionError ∧
    (⟨[]⟩ : CsvFile).records.filter
      (fun r => r.has_kusa fun _ => true) = [] := by
  refine ⟨rfl, ?_, rfl⟩
  intro hcontra
  simp [KusaDistance.of] at hcontra

/-- C3 (amended): for every NON-EMPTY input in which no record matches the
reaction pattern, `KusaDistance.of` fails with the division-error
condition; no `KusaDistance` value is returned and no mean is fabricated. -/
theorem C3_empty_reaction_series_fatal (csv : CsvFile) (p : String → Bool)
    (hne : csv.records ≠ [])
    (hnone : ∀ r ∈ csv.records, ¬ r.has_kusa p) :
    KusaDistance.of csv p = Except.error PyError.zeroDivisionError := by
  obtain ⟨recs⟩ := csv
  match recs, hne with
  | r0 :: rest, _ =>
    have hfil : (r0 :: rest).filter (fun r => r.has_kusa p) = [] := by
      simp only [List.filter_eq_nil_iff]
      exact fun r hr => by simpa using hnone r hr
    show (if _ then _ else _) = _
    rw [kusaLoop_eq, hfil]
    simp [reactionEventsSpec]

/-- Witness for C3 (amended) at a concrete input: one record, no match. -/
theorem C3_empty_reaction_series_fatal_witness :
    (⟨[⟨"", "", 5, "hello"⟩]⟩ : CsvFile).records ≠ [] ∧
    (∀ r ∈ (⟨[⟨"", "", 5, "hello"⟩]⟩ : CsvFile).records,
      ¬ r.has_kusa fun _ => false) ∧
    KusaDistance.of ⟨[⟨"", "", 5, "hello"⟩]⟩ (fun _ => false) =
      Except.error PyError.zeroDivisionError :=
  ⟨by decide, by decide,
   C3_empty_reaction_series_fatal _ _ (by decide) (by decide)⟩

/-- C9: on a fully empty filtered record sequence `KusaDistance.of` fails
with the out-of-bounds error from reading the first record's epoch, and
the division-error path is reached exactly when at least one record exists
but none matches the pattern. -/
theorem C9_index_error_before_division_error (p : String → Bool)
    (csv : CsvFile) :
    KusaDistance.of ⟨[]⟩ p = Except.error PyError.indexError ∧
    (KusaDistance.of csv p = Except.error PyError.zeroDivisionError ↔
      csv.records ≠ [] ∧
        csv.records.filter (fun r => r.has_kusa p) = []) := by
  refine ⟨rfl, ?_⟩
  obtain ⟨recs⟩ := csv
  match recs with
  | [] =>
    constructor
    · intro hcontra
      simp [KusaDistance.of] at hcontra
    · rintro ⟨hne, -⟩
      exact absurd rfl hne
  | r0 :: rest =>
    have hrw : KusaDistance.of ⟨r0 :: rest⟩ p =
        (if ((r0 :: rest).filter (fun r => r.has_kusa p)).length = 0 then
          Except.error PyError.zeroDivisionError
        else Except.ok
          ⟨reactionEventsSpec r0.unixtime
              ((r0 :: rest).filter fun r => r.has_kusa p),
           ((reactionEventsSpec r0.unixtime
               ((r0 :: rest).filter fun r => r.has_kusa p)).map
              fun e => e.distance).sum
             / (((r0 :: rest).filter fun r => r.has_kusa p).length : ℚ)⟩) := by
      show (if _ then _ else _) = _
      rw [kusaLoop_eq]
      simp only [reactionEventsSpec_length]
    rw [hrw]
    by_cases hz : ((r0 :: rest).filter (fun r => r.has_kusa p)).length = 0
    · simp only [if_pos hz]
      simp only [List.length_eq_zero] at hz
      simp [hz]
    · simp only [if_neg hz]
      simp only [List.length_eq_zero] at hz
      simp [hz]

/-- Helper for C10: when the cursor lies below every remaining epoch and
the epochs are sorted, every specified distance is non-negative. -/
theorem reactionEventsSpec_nonneg (before : ℚ) (ms : List MessageItem)
    (hb : ∀ m ∈ ms, before ≤ m.unixtime)
    (hs : ms.Pairwise fun a b => a.unixtime ≤ b.unixtime) :
    ∀ e ∈ reactionEventsSpec before ms, 0 ≤ e.distance := by
  induction ms generalizing before with
  | nil => simp [reactionEventsSpec]
  | cons r rs ih =>
    rw [reactionEventsSpec_cons]
    intro e he
    rcases List.mem_cons.mp he with rfl | he
    · have := hb r (by simp)
      simp only
      linarith
    · rcases List.pairwise_cons.mp hs with ⟨hr, hrs⟩
      exact ih r.unixtime hr hrs e he

/-- C10: for every record list sorted ascending by `unixtime` (as
`CsvFile.of` guarantees by sorting its output), every event produced by
`KusaDistance.of` has a non-negative distance, and the returned mean is
non-negative. -/
theorem C10_sorted_input_nonneg_distances (csv : CsvFile)
    (p : String → Bool) (kd : KusaDistance)
    (hs : csv.records.Sorted fun a b => a.unixtime ≤ b.unixtime)
    (hok : KusaDistance.of csv p = Except.ok kd) :
    (∀ e ∈ kd.records, 0 ≤ e.distance) ∧ 0 ≤ kd.avarage := by
  obtain ⟨recs⟩ := csv
  match recs, hok with
  | r0 :: rest, hok =>
    rw [show KusaDistance.of ⟨r0 :: rest⟩ p = (if _ then _ else _) from rfl,
      kusaLoop_eq] at hok
    by_cases hz : (reactionEventsSpec r0.unixtime
        ((r0 :: rest).filter fun r => r.has_kusa p)).length = 0
    · rw [if_pos hz] at hok
      cases hok
    · rw [if_neg hz] at hok
      have hkd := (Except.ok.injEq _ _).mp hok
      subst hkd
      have hsorted : ((r0 :: rest).filter fun r => r.has_kusa p).Pairwise
          fun a b => a.unixtime ≤ b.unixtime :=
        List.Pairwise.filter _ hs
      have hb : ∀ m ∈ (r0 :: rest).filter (fun r => r.has_kusa p),
          r0.unixtime ≤ m.unixtime := by
        intro m hm
        have hm2 := List.mem_of_mem_filter hm
        rcases List.mem_cons.mp hm2 with rfl | hm2
        · exact le_refl _
        · exact (List.pairwise_cons.mp hs).1 m hm2
      have hnn := reactionEventsSpec_nonneg r0.unixtime _ hb hsorted
      refine ⟨hnn, ?_⟩
      refine div_nonneg ?_ (by positivity)
      apply List.sum_nonneg
      intro d hd
      rcases List.mem_map.mp hd with ⟨e, he, rfl⟩
      exact hnn e he

/-- Witness for C10 at a concrete sorted input. -/
theorem C10_sorted_input_nonneg_distances_witness :
    (⟨[⟨"", "", 10, "w"⟩, ⟨"", "", 13, "w"⟩]⟩ : CsvFile).records.Sorted
        (fun a b => a.unixtime ≤ b.unixtime) ∧
    KusaDistance.of ⟨[⟨"", "", 10, "w"⟩, ⟨"", "", 13, "w"⟩]⟩
        (fun s => s == "w") = Except.ok
      ⟨[⟨⟨"", "", 10, "w"⟩, 0⟩, ⟨⟨"", "", 13, "w"⟩, 3⟩], 3 / 2⟩ ∧
    ((∀ e ∈ (⟨[⟨⟨"", "", 10, "w"⟩, 0⟩, ⟨⟨"", "", 13, "w"⟩, 3⟩], 3 / 2⟩ :
        KusaDistance).records, 0 ≤ e.distance) ∧
      (0 : ℚ) ≤ (⟨[⟨⟨"", "", 10, "w"⟩, 0⟩, ⟨⟨"", "", 13, "w"⟩, 3⟩], 3 / 2⟩ :
        KusaDistance).avarage) :=
  ⟨by decide,
   by
     simp [KusaDistance.of, kusaLoop, MessageItem.has_kusa]
     norm_num,
   C10_sorted_input_nonneg_distances
     ⟨[⟨"", "", 10, "w"⟩, ⟨"", "", 13, "w"⟩]⟩ (fun s => s == "w")
     ⟨[⟨⟨"", "", 10, "w"⟩, 0⟩, ⟨⟨"", "", 13, "w"⟩, 3⟩], 3 / 2⟩
     (by decide)
     (by
       simp [KusaDistance.of, kusaLoop, MessageItem.has_kusa]
       norm_num)⟩

/-- Python `str.split(sep)` for a one-character separator, on the
character list of the string: splits at every occurrence of the
separator, always returning at least one (possibly empty) piece. -/
def pySplit (c : Char) : List Char → List (List Char)
  | [] => [[]]
  | x :: xs =>
    if x = c then
      [] :: pySplit c xs
    else
      match pySplit c xs with
      | [] => [[x]]
      | h :: t => (x :: h) :: t

theorem pySplit_of_not_mem (c : Char) (l : List Char) (h : c ∉ l) :
    pySplit c l = [l] := by
  induction l with
  | nil => rfl
  | cons x xs ih =>
    have hx : ¬ x = c := fun hc => h (hc ▸ List.mem_cons_self x xs)
    have hxs : c ∉ xs := fun hc => h (List.mem_cons_of_mem x hc)
    simp only [pySplit, if_neg hx, ih hxs]

theorem pySplit_append (c : Char) (a b : List Char) (h : c ∉ a) :
    pySplit c (a ++ c :: b) = a :: pySplit c b := by
  induction a with
  | nil => simp [pySplit]
  | cons x xs ih =>
    have hx : ¬ x = c := fun hc => h (hc ▸ List.mem_cons_self x xs)
    have hxs : c ∉ xs := fun hc => h (List.mem_cons_of_mem x hc)
    simp only [List.cons_append, pySplit, if_neg hx, List.append_eq, ih hxs]

/-- Embedding of `format_secods` of `convert.py`: split on the plus sign, split the
date part on the dot, right-pad the fractional-seconds piece with zeros to
six digits (Python's `"0" * n` is empty for non-positive `n`), and
reassemble date, padded seconds and offset. -/
def format_secods (t : String) : String :=
  let split_all := pySplit '+' t.data
  let split_date := pySplit '.' (split_all.headD [])
  let seconds := split_date.getLastD [] ++
    List.replicate (6 - (split_date.getLastD []).length) '0'
  ⟨split_date.headD [] ++ '.' :: (seconds ++ '+' :: split_all.getLastD [])⟩

/-- C5 (pad-seconds): on an input of shape `date.frac+off` (no dot or plus
inside the pieces), `format_secods` right-pads the fractional part with
zeros to six digits and keeps date and offset unchanged; for a fractional
part of length at most 6 the output fraction has length exactly 6 with the
original fraction as its left part, and for length at least 6 the input is
returned entirely unchanged (never truncated). -/
theorem C5_format_secods_pads (date frac off : List Char)
    (hd1 : '.' ∉ date) (hd2 : '+' ∉ date)
    (hf1 : '.' ∉ frac) (hf2 : '+' ∉ frac)
    (ho : '+' ∉ off) :
    format_secods ⟨date ++ '.' :: (frac ++ '+' :: off)⟩ =
      ⟨date ++ '.' ::
        ((frac ++ List.replicate (6 - frac.length) '0') ++ '+' :: off)⟩ ∧
    (frac.length ≤ 6 →
      (frac ++ List.replicate (6 - frac.length) '0').length = 6) ∧
    (6 ≤ frac.length →
      format_secods ⟨date ++ '.' :: (frac ++ '+' :: off)⟩ =
        ⟨date ++ '.' :: (frac ++ '+' :: off)⟩) := by
  have hsplit1 : pySplit '+' (date ++ '.' :: (frac ++ '+' :: off)) =
      (date ++ '.' :: frac) :: [off] := by
    have hmem : '+' ∉ date ++ '.' :: frac := by
      intro hmem
      rcases List.mem_append.mp hmem with hmem | hmem
      · exact hd2 hmem
      · rcases List.mem_cons.mp hmem with hmem | hmem
        · cases hmem
        · exact hf2 hmem
    calc pySplit '+' (date ++ '.' :: (frac ++ '+' :: off))
        = pySplit '+' ((date ++ '.' :: frac) ++ '+' :: off) := by simp
      _ = (date ++ '.' :: frac) :: pySplit '+' off :=
          pySplit_append '+' _ off hmem
      _ = (date ++ '.' :: frac) :: [off] := by
          rw [pySplit_of_not_mem '+' off ho]
  have hsplit2 : pySplit '.' (date ++ '.' :: frac) = date :: [frac] := by
    rw [pySplit_append '.' date frac hd1, pySplit_of_not_mem '.' frac hf1]
  have hmain : format_secods ⟨date ++ '.' :: (frac ++ '+' :: off)⟩ =
      ⟨date ++ '.' ::
        ((frac ++ List.replicate (6 - frac.length) '0') ++ '+' :: off)⟩ := by
    simp only [format_secods, hsplit1, List.headD_cons, hsplit2,
      List.getLastD_cons]
    simp
  refine ⟨hmain, ?_, ?_⟩
  · intro hle
    simp only [List.length_append, List.length_replicate]
    omega
  · intro hge
    rw [hmain]
    have hz : 6 - frac.length = 0 := by omega
    simp [hz]

/-- Witness for C5 at the concrete input of the source's doc comment. -/
theorem C5_format_secods_pads_witness :
    (('.' ∉ "2022-07-04T12:05:08".data) ∧ ('+' ∉ "2022-07-04T12:05:08".data) ∧
     ('.' ∉ "17237".data) ∧ ('+' ∉ "17237".data) ∧ ('+' ∉ "00:00".data)) ∧
    (format_secods ⟨"2022-07-04T12:05:08".data ++ '.' ::
        ("17237".data ++ '+' :: "00:00".data)⟩ =
      ⟨"2022-07-04T12:05:08".data ++ '.' ::
        (("17237".data ++ List.replicate (6 - "17237".data.length) '0') ++
          '+' :: "00:00".data)⟩ ∧
     ("17237".data.length ≤ 6 →
      ("17237".data ++
        List.replicate (6 - "17237".data.length) '0').length = 6) ∧
     (6 ≤ "17237".data.length →
      format_secods ⟨"2022-07-04T12:05:08".data ++ '.' ::
          ("17237".data ++ '+' :: "00:00".data)⟩ =
        ⟨"2022-07-04T12:05:08".data ++ '.' ::
          ("17237".data ++ '+' :: "00:00".data)⟩)) :=
  ⟨⟨by decide, by decide, by decide, by decide, by decide⟩,
   C5_format_secods_pads _ _ _ (by decide) (by decide) (by decide)
     (by decide) (by decide)⟩

/-- Embedding of `ChatItem` of `convert.py`: one parsed transcript row.  The source is a
`NamedTuple` of 30 positional fields; `csv.reader` yields every field as a
string and the constructor performs no conversion, so all fields are
modelled as strings. -/
structure ChatItem where
  meta_type : String
  meta_publishedat : String
  message_text : String
  message_channelid : String
  deleted_messageid : String
  member_usercomment : String
  member_month : String
  member_lebelname : String
  newsponsor_lebelname : String
  newsponsor_upgrade : String
  superchat_amountmicros : String
  superchat_currency : String
  superchat_usercomment : String
  superchat_tier : String
  supersticker_id : String
  supersticker_alttext : String
  supersticker_amountmicros : String
  supersticker_currency : String
  supersticker_tier : String
  membergift_count : String
  membergift_lebelname : String
  membergiftreceive_lebelname : String
  author_channel_id : String
  author_display_name : String
  author_is_verified : String
  author_is_chatowner : String
  author_is_chatsponsor : String
  author_is_chatmoderator : String
  ban_channelid : String
  ban_display_name : String
deriving DecidableEq

/-- Construction of a `ChatItem` from one raw row, `ChatItem(*x)` in the
source: it succeeds exactly when the row has as many fields as the schema
(30), and raises a `TypeError` (modelled as `none`) otherwise. -/
def ChatItem.ofRow (r : List String) : Option ChatItem :=
  if h : r.length = 30 then
    some ⟨r.get ⟨0, by omega⟩, r.get ⟨1, by omega⟩, r.get ⟨2, by omega⟩,
      r.get ⟨3, by omega⟩, r.get ⟨4, by omega⟩, r.get ⟨5, by omega⟩,
      r.get ⟨6, by omega⟩, r.get ⟨7, by omega⟩, r.get ⟨8, by omega⟩,
      r.get ⟨9, by omega⟩, r.get ⟨10, by omega⟩, r.get ⟨11, by omega⟩,
      r.get ⟨12, by omega⟩, r.get ⟨13, by omega⟩, r.get ⟨14, by omega⟩,
      r.get ⟨15, by omega⟩, r.get ⟨16, by omega⟩, r.get ⟨17, by omega⟩,
      r.get ⟨18, by omega⟩, r.get ⟨19, by omega⟩, r.get ⟨20, by omega⟩,
      r.get ⟨21, by omega⟩, r.get ⟨22, by omega⟩, r.get ⟨23, by omega⟩,
      r.get ⟨24, by omega⟩, r.get ⟨25, by omega⟩, r.get ⟨26, by omega⟩,
      r.get ⟨27, by omega⟩, r.get ⟨28, by omega⟩, r.get ⟨29, by omega⟩⟩
  else
    none

/-- The field tuple of a `ChatItem`, in schema order. -/
def ChatItem.toRow (c : ChatItem) : List String :=
  [c.meta_type, c.meta_publishedat, c.message_text, c.message_channelid,
   c.deleted_messageid, c.member_usercomment, c.member_month,
   c.member_lebelname, c.newsponsor_lebelname, c.newsponsor_upgrade,
   c.superchat_amountmicros, c.superchat_currency, c.superchat_usercomment,
   c.superchat_tier, c.supersticker_id, c.supersticker_alttext,
   c.supersticker_amountmicros, c.supersticker_currency,
   c.supersticker_tier, c.membergift_count, c.membergift_lebelname,
   c.membergiftreceive_lebelname, c.author_channel_id,
   c.author_display_name, c.author_is_verified, c.author_is_chatowner,
   c.author_is_chatsponsor, c.author_is_chatmoderator, c.ban_channelid,
   c.ban_display_name]

/-- The row loop of `read_csv`: accepted records on the left, diagnostics
(row length and row content, from the `logger.exception` call) on the
right. -/
def readCsvLoop : List (List String) → List ChatItem × List (Nat × List String)
  | [] => ([], [])
  | x :: xs =>
    let rest := readCsvLoop xs
    match ChatItem.ofRow x with
    | some c => (c :: rest.1, rest.2)
    | none => (rest.1, (x.length, x) :: rest.2)

/-- Embedding of `read_csv` of `convert.py`, modelled on the already-tokenised rows: the
header row is discarded, each remaining row is accepted exactly when its
field count matches the schema arity, and rejected rows are recorded as
diagnostics without aborting the batch. -/
def read_csv (rows : List (List String)) :
    List ChatItem × List (Nat × List String) :=
  readCsvLoop (rows.drop 1)

theorem ChatItem.ofRow_isSome_iff (r : List String) :
    (ChatItem.ofRow r).isSome ↔ r.length = 30 := by
  by_cases h : r.length = 30 <;> simp [ChatItem.ofRow, h]

theorem ChatItem.toRow_ofRow (r : List String) (c : ChatItem)
    (h : ChatItem.ofRow r = some c) : c.toRow = r := by
  by_cases h30 : r.length = 30
  · rw [ChatItem.ofRow, dif_pos h30] at h
    cases h
    refine List.ext_get ?_ ?_
    · simp [ChatItem.toRow, h30]
    · intro i h1 h2
      rw [h30] at h2
      interval_cases i <;> rfl
  · rw [ChatItem.ofRow, dif_neg h30] at h
    cases h

theorem readCsvLoop_spec (l : List (List String)) :
    readCsvLoop l =
      (l.filterMap ChatItem.ofRow,
       (l.filter fun r => r.length != 30).map fun r => (r.length, r)) := by
  induction l with
  | nil => rfl
  | cons x xs ih =>
    rcases hx : ChatItem.ofRow x with - | c
    · have hlen : ¬ x.length = 30 := by
        rw [← ChatItem.ofRow_isSome_iff, hx]
        simp
      simp [readCsvLoop, hx, ih, List.filterMap_cons, List.filter_cons, hlen]
    · have hlen : x.length = 30 := by
        rw [← ChatItem.ofRow_isSome_iff, hx]
        rfl
      simp [readCsvLoop, hx, ih, List.filterMap_cons, List.filter_cons, hlen]

/-- C6 counterexample: the schema arity is 30, not 29.  A row with 30
fields differs from the claimed 29-field arity, yet `read_csv` accepts it
(and records no diagnostic), so the claim "rejects every row whose field
count differs from the 29-field schema arity" is false on the code. -/
theorem C6_counterexample_schema_arity :
    (List.replicate 30 "x").length ≠ 29 ∧
    (read_csv [[], List.replicate 30 "x"]).1.length = 1 ∧
    (read_csv [[], List.replicate 30 "x"]).2 = [] := by
  refine ⟨by decide, ?_, ?_⟩ <;> rfl

/-- C6 (amended, schema arity 30): `read_csv` discards the header row,
accepts exactly the rows with 30 fields (in input order, never repaired:
the accepted record's field tuple is the row itself), and records a
diagnostic carrying the row length and row content for every other row,
without aborting the batch. -/
theorem C6_parser_rejection_order (rows : List (List String)) :
    (read_csv rows).1 = (rows.drop 1).filterMap ChatItem.ofRow ∧
    (read_csv rows).2 =
      (((rows.drop 1).filter fun r => r.length != 30).map
        fun r => (r.length, r)) ∧
    (∀ row : List String, (ChatItem.ofRow row).isSome ↔ row.length = 30) ∧
    (∀ (row : List String) (c : ChatItem),
      ChatItem.ofRow row = some c → c.toRow = row) := by
  refine ⟨?_, ?_, ChatItem.ofRow_isSome_iff, ChatItem.toRow_ofRow⟩ <;>
    simp [read_csv, readCsvLoop_spec]

/-- Embedding of `NotifyControllerTable` of `aws_resource.py`; `create_md` reads only
its `title`. -/
structure NotifyControllerTable where
  video_id : String
  version : String
  scheduled_start_time : String
  time_stamp : String
  title : String
deriving DecidableEq

/-- Embedding of `LogRecord` of `convert.py`: one rendered burst entry.  `index` is the
1-based chronological index zero-padded to width 3, `n_record` the event
count zero-padded to width 4, both kept as strings exactly as in the
source. -/
structure LogRecord where
  index : String
  n_record : String
  start_timestamp : String
  end_timestamp : String
  record : String
deriving DecidableEq

/-- Embedding of `LogRecord.report` of `convert.py`: the one-line star-marked summary. -/
def LogRecord.report (r : LogRecord) : String :=
  "★ [" ++ r.start_timestamp ++ "]: " ++ r.n_record ++ " comments!\n"

/-- Python string `<` on the character lists: lexicographic comparison by
code point, a strict prefix being smaller. -/
def pyStrLt : List Char → List Char → Bool
  | [], [] => false
  | [], _ :: _ => true
  | _ :: _, [] => false
  | a :: as, b :: bs =>
    if a.toNat < b.toNat then true
    else if b.toNat < a.toNat then false
    else pyStrLt as bs

/-- Python `sorted(l, key=key, reverse=True)`: the stable descending sort,
embedded as the stable insertion sort in which `x` may precede `y` exactly
when `key x` is not smaller than `key y`. -/
def sortedByKeyDesc {α : Type} (key : α → String) (l : List α) : List α :=
  List.insertionSort (fun x y => ¬ pyStrLt (key x).data (key y).data) l

/-- Python `sorted(l, key=key)`: the stable ascending sort, embedded as the
stable insertion sort in which `x` may precede `y` exactly when `key y` is
not smaller than `key x`. -/
def sortedByKeyAsc {α : Type} (key : α → String) (l : List α) : List α :=
  List.insertionSort (fun x y => ¬ pyStrLt (key y).data (key x).data) l

/-- Embedding of `LogReport` of `convert.py`. -/
structure LogReport where
  records : List LogRecord
deriving DecidableEq

/-- Embedding of `LogReport.create_md` of `convert.py`: sort the entries descending by
the `n_record` string, keep the first `n_target` (the source's default for
`n_target` is 5), re-sort those ascending by the `index` string, and join
the star lines after the title. -/
def LogReport.create_md (lr : LogReport) (table : NotifyControllerTable)
    (n_target : Nat) : String :=
  let target := (sortedByKeyDesc (fun x => x.n_record) lr.records).take n_target
  table.title ++ "\n" ++
    String.join ((sortedByKeyAsc (fun x => x.index) target).map
      fun record => record.report)

/-- Specification-side value of a decimal digit string, most significant
digit first: the event count that a zero-padded count string denotes. -/
def decimalValue : List Char → Nat
  | [] => 0
  | c :: cs => (c.toNat - 48) * 10 ^ cs.length + decimalValue cs

/-- Specification-side event count of a report entry: the number denoted
by its zero-padded decimal count string. -/
def LogRecord.eventCount (r : LogRecord) : Nat :=
  decimalValue r.n_record.data

/-- Python `str.zfill`: left-pad with zeros to the requested width. -/
def zfill (w : Nat) (s : String) : String :=
  ⟨List.replicate (w - s.data.length) '0' ++ s.data⟩

/-- Decimal digit characters of a natural number, most significant first
(primitive recursion on a fuel bound large enough for every digit). -/
def natDigitsGo : Nat → Nat → List Char → List Char
  | 0, _, acc => acc
  | fuel + 1, n, acc =>
    if n < 10 then Nat.digitChar n :: acc
    else natDigitsGo fuel (n / 10) (Nat.digitChar (n % 10) :: acc)

/-- Python `str` of a natural number: its decimal digits. -/
def natRepr (n : Nat) : String := ⟨natDigitsGo (n + 1) n []⟩

theorem decimalValue_lt (l : List Char)
    (h : ∀ c ∈ l, 48 ≤ c.toNat ∧ c.toNat ≤ 57) :
    decimalValue l < 10 ^ l.length := by
  induction l with
  | nil => simp [decimalValue]
  | cons c cs ih =>
    have hc := h c (by simp)
    have hcs := ih fun x hx => h x (List.mem_cons_of_mem c hx)
    have hd : c.toNat - 48 ≤ 9 := by omega
    simp only [decimalValue, List.length_cons, pow_succ]
    calc (c.toNat - 48) * 10 ^ cs.length + decimalValue cs
        < (c.toNat - 48) * 10 ^ cs.length + 10 ^ cs.length := by omega
      _ = (c.toNat - 48 + 1) * 10 ^ cs.length := by ring
      _ ≤ 10 * 10 ^ cs.length := by
          have : c.toNat - 48 + 1 ≤ 10 := by omega
          exact Nat.mul_le_mul_right _ this
      _ = 10 ^ cs.length * 10 := by ring

/-- On equal-length digit strings, the Python string order is the numeric
order of the denoted values. -/
theorem pyStrLt_digits : ∀ (a b : List Char),
    (∀ c ∈ a, 48 ≤ c.toNat ∧ c.toNat ≤ 57) →
    (∀ c ∈ b, 48 ≤ c.toNat ∧ c.toNat ≤ 57) →
    a.length = b.length →
    (pyStrLt a b = true ↔ decimalValue a < decimalValue b)
  | [], [], _, _, _ => by simp [pyStrLt, decimalValue]
  | [], _ :: _, _, _, hlen => by simp at hlen
  | _ :: _, [], _, _, hlen => by simp at hlen
  | a :: as, b :: bs, ha, hb, hlen => by
    have hlen' : as.length = bs.length := by simpa using hlen
    have haa := ha a (by simp)
    have hbb := hb b (by simp)
    have has : ∀ c ∈ as, 48 ≤ c.toNat ∧ c.toNat ≤ 57 :=
      fun c hc => ha c (List.mem_cons_of_mem a hc)
    have hbs : ∀ c ∈ bs, 48 ≤ c.toNat ∧ c.toNat ≤ 57 :=
      fun c hc => hb c (List.mem_cons_of_mem b hc)
    have hav := decimalValue_lt as has
    have hbv := decimalValue_lt bs hbs
    simp only [decimalValue, hlen']
    rcases Nat.lt_trichotomy a.toNat b.toNat with hab | hab | hab
    · rw [pyStrLt, if_pos hab]
      have hdig : a.toNat - 48 < b.toNat - 48 := by omega
      constructor
      · intro _
        calc (a.toNat - 48) * 10 ^ bs.length + decimalValue as
            < (a.toNat - 48) * 10 ^ bs.length + 10 ^ bs.length := by
              rw [hlen'] at hav
              omega
          _ = (a.toNat - 48 + 1) * 10 ^ bs.length := by ring
          _ ≤ (b.toNat - 48) * 10 ^ bs.length := by
              exact Nat.mul_le_mul_right _ (by omega)
          _ ≤ (b.toNat - 48) * 10 ^ bs.length + decimalValue bs := by omega
      · intro _
        rfl
    · have heq1 : ¬ a.toNat < b.toNat := by omega
      have heq2 : ¬ b.toNat < a.toNat := by omega
      rw [pyStrLt, if_neg heq1, if_neg heq2]
      rw [pyStrLt_digits as bs has hbs hlen', hab]
      omega
    · have hgt1 : ¬ a.toNat < b.toNat := by omega
      rw [pyStrLt, if_neg hgt1, if_pos hab]
      constructor
      · intro hcontra
        cases hcontra
      · intro hcontra
        exfalso
        have : (b.toNat - 48) * 10 ^ bs.length + decimalValue bs
            < (a.toNat - 48) * 10 ^ bs.length + decimalValue as := by
          calc (b.toNat - 48) * 10 ^ bs.length + decimalValue bs
              < (b.toNat - 48) * 10 ^ bs.length + 10 ^ bs.length := by omega
            _ = (b.toNat - 48 + 1) * 10 ^ bs.length := by ring
            _ ≤ (a.toNat - 48) * 10 ^ bs.length :=
                Nat.mul_le_mul_right _ (by omega)
            _ ≤ (a.toNat - 48) * 10 ^ bs.length + decimalValue as := by omega
        omega

theorem orderedInsert_congr {α : Type} (r s : α → α → Prop)
    [DecidableRel r] [DecidableRel s] (x : α) :
    ∀ t : List α, (∀ y ∈ t, (r x y ↔ s x y)) →
      List.orderedInsert r x t = List.orderedInsert s x t := by
  intro t
  induction t with
  | nil => intro _; rfl
  | cons y ys ih =>
    intro h
    by_cases hr : r x y
    · rw [List.orderedInsert, if_pos hr, List.orderedInsert,
        if_pos ((h y (by simp)).mp hr)]
    · rw [List.orderedInsert, if_neg hr, List.orderedInsert,
        if_neg (fun hs2 => hr ((h y (by simp)).mpr hs2)),
        ih fun z hz => h z (List.mem_cons_of_mem y hz)]

/-- Two stable insertion sorts agree whenever their orders agree on the
elements of the list being sorted. -/
theorem insertionSort_congr {α : Type} (r s : α → α → Prop)
    [DecidableRel r] [DecidableRel s] :
    ∀ l : List α, (∀ x ∈ l, ∀ y ∈ l, (r x y ↔ s x y)) →
      List.insertionSort r l = List.insertionSort s l := by
  intro l
  induction l with
  | nil => intro _; rfl
  | cons x xs ih =>
    intro h
    rw [List.insertionSort, List.insertionSort,
      ← ih fun a ha b hb =>
        h a (List.mem_cons_of_mem x ha) b (List.mem_cons_of_mem x hb)]
    apply orderedInsert_congr
    intro y hy
    have hy2 : y ∈ xs := (List.perm_insertionSort r xs).mem_iff.mp hy
    exact h x (by simp) y (List.mem_cons_of_mem x hy2)

/-- C7 (amended): when every entry's count string is a 4-character decimal
digit string (as `str(len(group)).zfill(4)` yields for counts up to 9999),
`create_md` selects the top-N entries by event count (descending, ties in
original relative order: a stable sort), re-sorts the selected subset
ascending by its zero-padded index string, prefixes the stream title, and
renders each selected entry as one star-marked line containing its start
label and event count. -/
theorem C7_summary_selection (lr : LogReport) (table : NotifyControllerTable)
    (n_target : Nat)
    (hdig : ∀ r ∈ lr.records, r.n_record.data.length = 4 ∧
      ∀ c ∈ r.n_record.data, 48 ≤ c.toNat ∧ c.toNat ≤ 57) :
    lr.create_md table n_target =
      table.title ++ "\n" ++
        String.join ((sortedByKeyAsc (fun x => x.index)
            ((List.insertionSort
              (fun x y : LogRecord => y.eventCount ≤ x.eventCount)
              lr.records).take n_target)).map
          fun record => "★ [" ++ record.start_timestamp ++ "]: " ++
            record.n_record ++ " comments!\n") := by
  have hsort : sortedByKeyDesc (fun x => x.n_record) lr.records =
      List.insertionSort (fun x y : LogRecord => y.eventCount ≤ x.eventCount)
        lr.records := by
    apply insertionSort_congr
    intro x hx y hy
    obtain ⟨hxlen, hxd⟩ := hdig x hx
    obtain ⟨hylen, hyd⟩ := hdig y hy
    have hiff := pyStrLt_digits x.n_record.data y.n_record.data hxd hyd
      (by rw [hxlen, hylen])
    constructor
    · intro hnot
      by_contra hcon
      push_neg at hcon
      exact hnot (hiff.mpr hcon)
    · intro hle hlt
      have := hiff.mp hlt
      simp only [LogRecord.eventCount] at hle
      omega
  simp only [LogReport.create_md, hsort, LogRecord.report]

/-- Witness for C7 (amended) at a concrete input. -/
theorem C7_summary_selection_witness :
    (∀ r ∈ (⟨[⟨"001", "0002", "00:01", "00:02", ""⟩,
        ⟨"002", "0010", "00:03", "00:04", ""⟩]⟩ : LogReport).records,
      r.n_record.data.length = 4 ∧
        ∀ c ∈ r.n_record.data, 48 ≤ c.toNat ∧ c.toNat ≤ 57) ∧
    LogReport.create_md
        ⟨[⟨"001", "0002", "00:01", "00:02", ""⟩,
          ⟨"002", "0010", "00:03", "00:04", ""⟩]⟩
        ⟨"", "", "", "", "t"⟩ 1 =
      "t" ++ "\n" ++
        String.join ((sortedByKeyAsc (fun x => x.index)
            ((List.insertionSort
              (fun x y : LogRecord => y.eventCount ≤ x.eventCount)
              [⟨"001", "0002", "00:01", "00:02", ""⟩,
               ⟨"002", "0010", "00:03", "00:04", ""⟩]).take 1)).map
          fun record => "★ [" ++ record.start_timestamp ++ "]: " ++
            record.n_record ++ " comments!\n") :=
  ⟨by decide,
   C7_summary_selection
     ⟨[⟨"001", "0002", "00:01", "00:02", ""⟩,
       ⟨"002", "0010", "00:03", "00:04", ""⟩]⟩
     ⟨"", "", "", "", "t"⟩ 1 (by decide)⟩

/-- C7 counterexample: with an entry of 10000 events (count string
`"10000"`, exactly what `str(len(group)).zfill(4)` produces) and an entry
of 9999 events, `create_md` with top-1 selection renders the 9999-event
entry, because it orders entries by the zero-padded count STRING, under
which `"10000" < "9999"`; the claim's top-N-by-event-count selection would
render the 10000-event entry. -/
theorem C7_counterexample_five_digit_count :
    zfill 4 (natRepr 10000) = "10000" ∧
    zfill 4 (natRepr 9999) = "9999" ∧
    LogRecord.eventCount ⟨"002", "9999", "00:03", "00:04", ""⟩ <
      LogRecord.eventCount ⟨"001", "10000", "00:01", "00:02", ""⟩ ∧
    LogReport.create_md
        ⟨[⟨"001", "10000", "00:01", "00:02", ""⟩,
          ⟨"002", "9999", "00:03", "00:04", ""⟩]⟩
        ⟨"", "", "", "", "title"⟩ 1 =
      "title\n★ [00:03]: 9999 comments!\n" ∧
    "title\n★ [00:03]: 9999 comments!\n" ≠
      "title\n★ [00:01]: 10000 comments!\n" := by
  refine ⟨by decide, by decide, by decide, by decide, by decide⟩

/-- A parsed timezone-aware datetime value: calendar date, time of day,
fractional second (in `[0,1)`) and UTC offset in minutes. -/
structure PyDatetime where
  year : Nat
  month : Nat
  day : Nat
  hour : Nat
  minute : Nat
  second : Nat
  frac : ℚ
  offset : Int
deriving DecidableEq

/-- Reads exactly `n` decimal digits, returning their value and the rest. -/
def parseNDigits : Nat → List Char → Option (Nat × List Char)
  | 0, l => some (0, l)
  | _ + 1, [] => none
  | n + 1, c :: l =>
    if 48 ≤ c.toNat ∧ c.toNat ≤ 57 then
      match parseNDigits n l with
      | some (v, rest) => some ((c.toNat - 48) * 10 ^ n + v, rest)
      | none => none
    else none

/-- Consumes one expected character. -/
def expectChar (c : Char) : List Char → Option (List Char)
  | x :: rest => if x = c then some rest else none
  | [] => none

/-- Longest digit run at the front of the list. -/
def takeDigits : List Char → List Char × List Char
  | [] => ([], [])
  | c :: l =>
    if 48 ≤ c.toNat ∧ c.toNat ≤ 57 then
      let r := takeDigits l
      (c :: r.1, r.2)
    else ([], c :: l)

/-- Optional fractional-seconds component: a dot followed by one to six
digits, valued as a fraction of a second; absent means zero. -/
def parseFracPart : List Char → Option (ℚ × List Char)
  | '.' :: l =>
    let d := takeDigits l
    if 1 ≤ d.1.length ∧ d.1.length ≤ 6 then
      some ((decimalValue d.1 : ℚ) / ((10 : ℚ) ^ d.1.length), d.2)
    else none
  | l => some (0, l)

/-- UTC-offset component `±HH:MM`, in minutes. -/
def parseOffset : List Char → Option (Int × List Char)
  | '+' :: l =>
    (parseNDigits 2 l).bind fun hh =>
    (expectChar ':' hh.2).bind fun r =>
    (parseNDigits 2 r).bind fun mm =>
    if hh.1 ≤ 23 ∧ mm.1 ≤ 59 then
      some (((60 * hh.1 + mm.1 : Nat) : Int), mm.2)
    else none
  | '-' :: l =>
    (parseNDigits 2 l).bind fun hh =>
    (expectChar ':' hh.2).bind fun r =>
    (parseNDigits 2 r).bind fun mm =>
    if hh.1 ≤ 23 ∧ mm.1 ≤ 59 then
      some (-((60 * hh.1 + mm.1 : Nat) : Int), mm.2)
    else none
  | _ => none

/-- Days in a month of the proleptic Gregorian calendar. -/
def daysInMonth (y m : Nat) : Nat :=
  if m = 2 then
    if y % 4 = 0 ∧ (y % 100 ≠ 0 ∨ y % 400 = 0) then 29 else 28
  else if m = 4 ∨ m = 6 ∨ m = 9 ∨ m = 11 then 30
  else 31

/-- Python `datetime.fromisoformat`, restricted to the aware shapes the
pipeline feeds it: `YYYY-MM-DDTHH:MM:SS`, an optional fractional-seconds
part, and a mandatory `±HH:MM` offset.  Any other input is a parse error
(`ValueError`), modelled as `none`. -/
def fromisoformat (s : String) : Option PyDatetime :=
  (parseNDigits 4 s.data).bind fun yy =>
  (expectChar '-' yy.2).bind fun r1 =>
  (parseNDigits 2 r1).bind fun mo =>
  (expectChar '-' mo.2).bind fun r2 =>
  (parseNDigits 2 r2).bind fun dd =>
  (expectChar 'T' dd.2).bind fun r3 =>
  (parseNDigits 2 r3).bind fun hh =>
  (expectChar ':' hh.2).bind fun r4 =>
  (parseNDigits 2 r4).bind fun mi =>
  (expectChar ':' mi.2).bind fun r5 =>
  (parseNDigits 2 r5).bind fun ss =>
  (parseFracPart ss.2).bind fun fr =>
  (parseOffset fr.2).bind fun off =>
  if off.2 = [] ∧ 1 ≤ mo.1 ∧ mo.1 ≤ 12 ∧ 1 ≤ dd.1 ∧
      dd.1 ≤ daysInMonth yy.1 mo.1 ∧ hh.1 ≤ 23 ∧ mi.1 ≤ 59 ∧ ss.1 ≤ 59 then
    some ⟨yy.1, mo.1, dd.1, hh.1, mi.1, ss.1, fr.1, off.1⟩
  else none

/-- Days since 1970-01-01 of a proleptic Gregorian date (the standard
era-based algorithm, with C-style truncating division). -/
def daysFromCivil (y m d : Nat) : Int :=
  let y2 : Int := if m ≤ 2 then (y : Int) - 1 else (y : Int)
  let era : Int := Int.tdiv (if 0 ≤ y2 then y2 else y2 - 399) 400
  let yoe : Int := y2 - era * 400
  let mp : Int := if 2 < m then (m : Int) - 3 else (m : Int) + 9
  let doy : Int := Int.tdiv (153 * mp + 2) 5 + (d : Int) - 1
  let doe : Int := yoe * 365 + Int.tdiv yoe 4 - Int.tdiv yoe 100 + doy
  era * 146097 + doe - 719468

/-- POSIX timestamp of a parsed aware datetime, in seconds (exact). -/
def PyDatetime.toEpoch (t : PyDatetime) : ℚ :=
  (daysFromCivil t.year t.month t.day : ℚ) * 86400 +
    (t.hour : ℚ) * 3600 + (t.minute : ℚ) * 60 + (t.second : ℚ) + t.frac -
    (t.offset : ℚ) * 60

/-- Python `str` of an `int`. -/
def intRepr (n : Int) : String :=
  if n < 0 then "-" ++ natRepr (-n).toNat else natRepr n.toNat

/-- Python format `f"{n:02}"`: zero-pad to width 2. -/
def formatPad2 (n : Int) : String :=
  zfill 2 (intRepr n)

/-- Python `int()` on a real value: truncation toward zero. -/
def ratTrunc (q : ℚ) : Int :=
  if 0 ≤ q then ⌊q⌋ else -⌊-q⌋

/-- Embedding of `timestamp` of `convert.py`: parse both instants, take the difference
in seconds, split it with float floor-divisions (`hh = int(diff // 3600)`,
`mm = int(remain // 60)`) and a final `int()` truncation for the seconds,
and format `MM:SS` when `hh == 0` and `H:MM:SS` otherwise. -/
def timestamp (start target : String) : Option String :=
  match fromisoformat start, fromisoformat target with
  | some s, some t =>
    let diff_sec : ℚ := t.toEpoch - s.toEpoch
    let hh : Int := ⌊diff_sec / 3600⌋
    let remain_sec : ℚ := diff_sec - (hh : ℚ) * 3600
    let mm : Int := ⌊remain_sec / 60⌋
    let ss : Int := ratTrunc (remain_sec - (mm : ℚ) * 60)
    some (if hh = 0 then formatPad2 mm ++ ":" ++ formatPad2 ss
      else intRepr hh ++ ":" ++ formatPad2 mm ++ ":" ++ formatPad2 ss)
  | _, _ => none

/-- Specification-side elapsed-time rendering of a whole number of
seconds: `H:MM:SS` when the hour component is positive (hours unpadded),
otherwise `MM:SS`, minutes and seconds zero-padded to width 2. -/
def specElapsedFormat (T : Nat) : String :=
  if 0 < T / 3600 then
    natRepr (T / 3600) ++ ":" ++ zfill 2 (natRepr (T % 3600 / 60)) ++
      ":" ++ zfill 2 (natRepr (T % 60))
  else
    zfill 2 (natRepr (T / 60)) ++ ":" ++ zfill 2 (natRepr (T % 60))

theorem int_floor_of_nonneg (x : ℚ) (hx : 0 ≤ x) : ⌊x⌋ = (⌊x⌋₊ : Int) := by
  have h0 : (0 : ℤ) ≤ ⌊x⌋ := Int.le_floor.mpr (by exact_mod_cast hx)
  rw [← Int.floor_toNat, Int.toNat_of_nonneg h0]

theorem intRepr_natCast (k : ℕ) : intRepr (k : ℤ) = natRepr k := by
  rw [intRepr, if_neg (not_lt.mpr (Int.natCast_nonneg k)), Int.toNat_natCast]

theorem formatPad2_natCast (k : ℕ) :
    formatPad2 (k : ℤ) = zfill 2 (natRepr k) := by
  rw [formatPad2, intRepr_natCast]

theorem floor_nat_add_fract_div (M k : ℕ) (f : ℚ)
    (hf0 : 0 ≤ f) (hf1 : f < 1) :
    ⌊((M : ℚ) + f) / (k : ℚ)⌋ = ((M / k : ℕ) : ℤ) := by
  have hx0 : (0 : ℚ) ≤ (M : ℚ) + f := add_nonneg (Nat.cast_nonneg M) hf0
  rw [int_floor_of_nonneg _ (div_nonneg hx0 (Nat.cast_nonneg k))]
  have h2 := Nat.floor_div_nat ((M : ℚ) + f) k
  have h3 : ⌊(M : ℚ) + f⌋₊ = M := by
    rw [add_comm, Nat.floor_add_nat hf0, Nat.floor_eq_zero.mpr hf1, zero_add]
  rw [h2, h3]

theorem trunc_nat_add_fract (M : ℕ) (f : ℚ) (hf0 : 0 ≤ f) (hf1 : f < 1) :
    ratTrunc ((M : ℚ) + f) = (M : ℤ) := by
  have hx0 : (0 : ℚ) ≤ (M : ℚ) + f := add_nonneg (Nat.cast_nonneg M) hf0
  rw [ratTrunc, if_pos hx0, int_floor_of_nonneg _ hx0]
  have h3 : ⌊(M : ℚ) + f⌋₊ = M := by
    rw [add_comm, Nat.floor_add_nat hf0, Nat.floor_eq_zero.mpr hf1, zero_add]
  rw [h3]

/-- C4 (amended): for every pair of parseable instants with
`start ≤ target`, `timestamp` renders the whole-second part of
`target - start` (truncation toward zero of the fractional remainder,
witnessed by the floor bounds in the last two conjuncts) as `H:MM:SS`
when the hour part is positive and as `MM:SS` otherwise, minutes and
seconds zero-padded to width 2, hours unpadded.  For `target < start` the
code instead emits a negative unpadded hour field, see the
counterexample. -/
theorem C4_elapsed_time_format (start target : String) (s t : PyDatetime)
    (hs : fromisoformat start = some s)
    (ht : fromisoformat target = some t)
    (hle : s.toEpoch ≤ t.toEpoch) :
    timestamp start target =
      some (specElapsedFormat ⌊t.toEpoch - s.toEpoch⌋₊) ∧
    (⌊t.toEpoch - s.toEpoch⌋₊ : ℚ) ≤ t.toEpoch - s.toEpoch ∧
    t.toEpoch - s.toEpoch < (⌊t.toEpoch - s.toEpoch⌋₊ : ℚ) + 1 := by
  have hd : (0 : ℚ) ≤ t.toEpoch - s.toEpoch := by linarith
  refine ⟨?_, Nat.floor_le hd, Nat.lt_floor_add_one _⟩
  rw [timestamp, hs, ht]
  dsimp only
  set d : ℚ := t.toEpoch - s.toEpoch with hdd
  set N : ℕ := ⌊d⌋₊ with hNN
  have hN1 : (N : ℚ) ≤ d := Nat.floor_le hd
  have hN2 : d < N + 1 := Nat.lt_floor_add_one d
  have hf0 : (0 : ℚ) ≤ d - N := by linarith
  have hf1 : d - N < 1 := by linarith
  have hdm1 : (3600 : ℚ) * ((N / 3600 : ℕ) : ℚ) + ((N % 3600 : ℕ) : ℚ) =
      (N : ℚ) := by exact_mod_cast Nat.div_add_mod N 3600
  have hdm2 : (60 : ℚ) * ((N % 3600 / 60 : ℕ) : ℚ) +
      ((N % 3600 % 60 : ℕ) : ℚ) = ((N % 3600 : ℕ) : ℚ) := by
    exact_mod_cast Nat.div_add_mod (N % 3600) 60
  have hmm3 : ((N % 3600 % 60 : ℕ) : ℚ) = ((N % 60 : ℕ) : ℚ) := by
    exact_mod_cast congrArg (fun x : ℕ => (x : ℚ))
      (Nat.mod_mod_of_dvd N (by norm_num))
  have hh_eq : ⌊d / 3600⌋ = ((N / 3600 : ℕ) : ℤ) := by
    rw [int_floor_of_nonneg _ (div_nonneg hd (by norm_num))]
    have h2 := Nat.floor_div_nat d 3600
    push_cast at h2
    exact_mod_cast h2
  have hsplit1 : d - ((N / 3600 : ℕ) : ℚ) * 3600 =
      ((N % 3600 : ℕ) : ℚ) + (d - N) := by linarith
  have hmm_eq : ⌊(d - (((N / 3600 : ℕ) : ℤ) : ℚ) * 3600) / 60⌋ =
      ((N % 3600 / 60 : ℕ) : ℤ) := by
    simp only [Int.cast_natCast]
    rw [hsplit1]
    exact_mod_cast floor_nat_add_fract_div (N % 3600) 60 (d - N) hf0 hf1
  have hsplit2 : d - ((N / 3600 : ℕ) : ℚ) * 3600 -
      ((N % 3600 / 60 : ℕ) : ℚ) * 60 = ((N % 60 : ℕ) : ℚ) + (d - N) := by
    linarith
  have hss_eq : ratTrunc (d - (((N / 3600 : ℕ) : ℤ) : ℚ) * 3600 -
      (((N % 3600 / 60 : ℕ) : ℤ) : ℚ) * 60) = ((N % 60 : ℕ) : ℤ) := by
    simp only [Int.cast_natCast]
    rw [hsplit2]
    exact trunc_nat_add_fract (N % 60) (d - N) hf0 hf1
  rw [hh_eq, hmm_eq, hss_eq]
  by_cases h0 : N / 3600 = 0
  · rw [if_pos (by exact_mod_cast congrArg (fun x : ℕ => (x : ℤ)) h0)]
    rw [specElapsedFormat, if_neg (by omega)]
    have hlt : N < 3600 := by omega
    rw [formatPad2_natCast, formatPad2_natCast]
    rw [show N % 3600 = N from Nat.mod_eq_of_lt hlt]
  · rw [if_neg (by exact_mod_cast h0)]
    rw [specElapsedFormat, if_pos (by omega)]
    rw [intRepr_natCast, formatPad2_natCast, formatPad2_natCast]

theorem digitChar_is_digit (k : Nat) (h : k < 10) :
    48 ≤ (Nat.digitChar k).toNat ∧ (Nat.digitChar k).toNat ≤ 57 := by
  interval_cases k <;> decide

theorem natDigitsGo_digits : ∀ (fuel n : Nat) (acc : List Char),
    (∀ c ∈ acc, 48 ≤ c.toNat ∧ c.toNat ≤ 57) →
    ∀ c ∈ natDigitsGo fuel n acc, 48 ≤ c.toNat ∧ c.toNat ≤ 57
  | 0, n, acc, hacc => by simpa [natDigitsGo] using hacc
  | fuel + 1, n, acc, hacc => by
    rw [natDigitsGo]
    by_cases h : n < 10
    · rw [if_pos h]
      intro c hc
      rcases List.mem_cons.mp hc with rfl | hc
      · exact digitChar_is_digit n h
      · exact hacc c hc
    · rw [if_neg h]
      refine natDigitsGo_digits fuel (n / 10) _ ?_
      intro c hc
      rcases List.mem_cons.mp hc with rfl | hc
      · exact digitChar_is_digit _ (Nat.mod_lt n (by norm_num))
      · exact hacc c hc

theorem natDigitsGo_length : ∀ (fuel n : Nat) (acc : List Char),
    acc.length ≤ (natDigitsGo fuel n acc).length
  | 0, _, acc => by simp [natDigitsGo]
  | fuel + 1, n, acc => by
    rw [natDigitsGo]
    by_cases h : n < 10
    · rw [if_pos h]
      simp
    · rw [if_neg h]
      calc acc.length ≤ (Nat.digitChar (n % 10) :: acc).length := by simp
        _ ≤ _ := natDigitsGo_length fuel (n / 10) _

/-- The decimal rendering of a natural number is a non-empty digit
string. -/
theorem natRepr_head (n : Nat) :
    ∃ c cs, (natRepr n).data = c :: cs ∧ 48 ≤ c.toNat ∧ c.toNat ≤ 57 := by
  have hlen : 1 ≤ (natDigitsGo (n + 1) n []).length := by
    rw [natDigitsGo]
    by_cases h : n < 10
    · rw [if_pos h]
      simp
    · rw [if_neg h]
      calc 1 = (Nat.digitChar (n % 10) :: ([] : List Char)).length := by simp
        _ ≤ _ := natDigitsGo_length n (n / 10) _
  rcases hm : natDigitsGo (n + 1) n [] with - | ⟨c, cs⟩
  · rw [hm] at hlen
    simp at hlen
  · refine ⟨c, cs, hm, ?_⟩
    have := natDigitsGo_digits (n + 1) n [] (by simp) c (by rw [hm]; simp)
    exact this

/-- Zero-padding to width 2 keeps the first character a digit. -/
theorem zfill_two_head (s : String)
    (h : ∃ c cs, s.data = c :: cs ∧ 48 ≤ c.toNat ∧ c.toNat ≤ 57) :
    ∃ c cs, (zfill 2 s).data = c :: cs ∧ 48 ≤ c.toNat ∧ c.toNat ≤ 57 := by
  obtain ⟨c, cs, hdata, h1, h2⟩ := h
  rcases hp : 2 - s.data.length with - | k
  · exact ⟨c, cs, by rw [zfill]; rw [hp]; simpa using hdata, h1, h2⟩
  · exact ⟨'0', List.replicate k '0' ++ s.data,
      by rw [zfill]; rw [hp]; simp [List.replicate_succ], by decide, by decide⟩

theorem data_head_append (x y : String) (c : Char) (cs : List Char)
    (h : x.data = c :: cs) : (x ++ y).data = c :: (cs ++ y.data) := by
  show x.data ++ y.data = _
  rw [h]
  rfl

/-- The format mandated by the claim always begins with a digit. -/
theorem specElapsedFormat_head (T : Nat) :
    ∃ c cs, (specElapsedFormat T).data = c :: cs ∧
      48 ≤ c.toNat ∧ c.toNat ≤ 57 := by
  rw [specElapsedFormat]
  by_cases h : 0 < T / 3600
  · rw [if_pos h]
    obtain ⟨c, cs, hdata, h1, h2⟩ := natRepr_head (T / 3600)
    have e1 := data_head_append (natRepr (T / 3600)) ":" c cs hdata
    have e2 := data_head_append _ (zfill 2 (natRepr (T % 3600 / 60))) c _ e1
    have e3 := data_head_append _ ":" c _ e2
    have e4 := data_head_append _ (zfill 2 (natRepr (T % 60))) c _ e3
    exact ⟨c, _, e4, h1, h2⟩
  · rw [if_neg h]
    obtain ⟨c, cs, hdata, h1, h2⟩ := zfill_two_head _ (natRepr_head (T / 60))
    have e1 := data_head_append _ ":" c _ hdata
    have e2 := data_head_append _ (zfill 2 (natRepr (T % 60))) c _ e1
    exact ⟨c, _, e2, h1, h2⟩

/-- C4 counterexample: for parseable instants whose target lies two hours
BEFORE the start, the code emits `"-2:00:00"` — the hours component is not
positive, yet the output is not of the claimed `MM:SS` shape; indeed no
output of the claimed format starts with a minus sign. -/
theorem C4_counterexample_negative_difference :
    timestamp "2022-07-13T13:00:00+00:00" "2022-07-13T11:00:00+00:00" =
      some "-2:00:00" ∧
    ∀ T : Nat, specElapsedFormat T ≠ "-2:00:00" := by
  constructor
  · rw [timestamp, show fromisoformat "2022-07-13T13:00:00+00:00" =
        some ⟨2022, 7, 13, 13, 0, 0, 0, 0⟩ from rfl,
      show fromisoformat "2022-07-13T11:00:00+00:00" =
        some ⟨2022, 7, 13, 11, 0, 0, 0, 0⟩ from rfl]
    simp only [PyDatetime.toEpoch,
      show daysFromCivil 2022 7 13 = 19186 from by decide]
    norm_num [ratTrunc, intRepr, formatPad2, zfill]
    decide
  · intro T heq
    obtain ⟨c, cs, hdata, h1, h2⟩ := specElapsedFormat_head T
    rw [heq] at hdata
    have hminus : ("-2:00:00").data = '-' :: "2:00:00".data := by decide
    rw [hminus] at hdata
    cases hdata
    simp at h1

/-- Witness for C4 (amended) at the specification's concrete examples:
the 59-second difference renders as `"00:59"` and the 1h5m3s difference
as `"1:05:03"`. -/
theorem C4_elapsed_time_format_witness :
    fromisoformat "2022-07-13T13:00:00+00:00" =
      some ⟨2022, 7, 13, 13, 0, 0, 0, 0⟩ ∧
    fromisoformat "2022-07-13T13:00:59+00:00" =
      some ⟨2022, 7, 13, 13, 0, 59, 0, 0⟩ ∧
    (⟨2022, 7, 13, 13, 0, 0, 0, 0⟩ : PyDatetime).toEpoch ≤
      (⟨2022, 7, 13, 13, 0, 59, 0, 0⟩ : PyDatetime).toEpoch ∧
    timestamp "2022-07-13T13:00:00+00:00" "2022-07-13T13:00:59+00:00" =
      some (specElapsedFormat
        ⌊(⟨2022, 7, 13, 13, 0, 59, 0, 0⟩ : PyDatetime).toEpoch -
          (⟨2022, 7, 13, 13, 0, 0, 0, 0⟩ : PyDatetime).toEpoch⌋₊) ∧
    timestamp "2022-07-13T13:00:00+00:00" "2022-07-13T13:00:59+00:00" =
      some "00:59" ∧
    timestamp "2022-07-13T13:00:00+00:00" "2022-07-13T14:05:03+00:00" =
      some "1:05:03" :=
  ⟨rfl, rfl,
   by
     simp only [PyDatetime.toEpoch,
       show daysFromCivil 2022 7 13 = 19186 from by decide]
     norm_num,
   (C4_elapsed_time_format "2022-07-13T13:00:00+00:00"
     "2022-07-13T13:00:59+00:00" ⟨2022, 7, 13, 13, 0, 0, 0, 0⟩
     ⟨2022, 7, 13, 13, 0, 59, 0, 0⟩ rfl rfl
     (by
       simp only [PyDatetime.toEpoch,
         show daysFromCivil 2022 7 13 = 19186 from by decide]
       norm_num)).1,
   by
     rw [timestamp, show fromisoformat "2022-07-13T13:00:00+00:00" =
         some ⟨2022, 7, 13, 13, 0, 0, 0, 0⟩ from rfl,
       show fromisoformat "2022-07-13T13:00:59+00:00" =
         some ⟨2022, 7, 13, 13, 0, 59, 0, 0⟩ from rfl]
     simp only [PyDatetime.toEpoch,
       show daysFromCivil 2022 7 13 = 19186 from by decide]
     norm_num [ratTrunc, intRepr, formatPad2, zfill]
     decide,
   by
     rw [timestamp, show fromisoformat "2022-07-13T13:00:00+00:00" =
         some ⟨2022, 7, 13, 13, 0, 0, 0, 0⟩ from rfl,
       show fromisoformat "2022-07-13T14:05:03+00:00" =
         some ⟨2022, 7, 13, 14, 5, 3, 0, 0⟩ from rfl]
     simp only [PyDatetime.toEpoch,
       show daysFromCivil 2022 7 13 = 19186 from by decide]
     norm_num [ratTrunc, intRepr, formatPad2, zfill]
     decide⟩
